import Mathlib

/-!
Verification of the gofunctional2 `functional` package (shallow embedding).

The Go package implements a pull-based Stream protocol:
  Next(ptr) returns nil (value written through ptr), the sentinel error
  Done (exhaustion), the sentinel error Skipped (internal filter signal),
  or an arbitrary other error; Close() returns nil or an error.

Embedding choices, all translated from src/functional/functional.go,
src/functional/generators.go, src/functional/emitter_stream.go and
src/functional/consumers.go:

  - Element type is fixed to Int (Go streams are dynamically typed via
    interface pointers; the claims are element-type generic).
  - `Err` models the non-nil Go error values: the Done sentinel, the
    Skipped sentinel, and arbitrary other errors identified by a code.
    `GoError = Option Err` models a Go error variable (none = nil).
  - A call to Next is modelled as `NextRes`: either a value written to the
    caller slot (nil return) or an error return (no meaningful value).
  - Stateful stream objects become an inductive `Stream'` of states, with
    one constructor per Go stream struct used by the claims, plus
    `extS`/`rowS` base states that model arbitrary deterministic external
    collaborators (a finite script of responses plus instrumentation
    counters that record how often Next and the underlying closer were
    actually invoked).  The generator (`genS`) is the sequential
    semantics of regularGenerator: the two rendezvous channels enforce
    strict alternation between the emitting function and the caller of
    Next, so from the caller side the generator is a deterministic state
    machine over the list of outcomes the emitting function passes to
    Return (Return panics on Done, hence Done is not expressible in a
    step) plus the cleanup error the function finally returns.
  - Go loops inside Next (filter/map/drop retry loops, the slice skip
    loop, the concat advance loop) become fuel-consuming recursion:
    `nextF fuel s` returns `none` when the fuel is exhausted and
    `some (result, new state)` otherwise.  Fuel strictly decreases on
    every recursive call, so `nextF` is structurally recursive and
    reduces definitionally on closed terms.
  - The infinite `count` stream (Count/CountFrom) never returns Done and
    never loops inside one call; it is modelled standalone as `CountS`
    with 64-bit wrap-around arithmetic, since Go ints overflow by
    wrapping.
-/

namespace GoFunc

/-- Err models the non-nil Go error values that appear in the package:
the Done sentinel, the Skipped sentinel, and arbitrary other errors. -/
inductive Err : Type where
  | done : Err
  | skipped : Err
  | other (code : Nat) : Err
deriving DecidableEq

/-- GoError models a Go error variable: none is the nil error. -/
abbrev GoError := Option Err

/-- GenErr models an error a user callback may produce where the Done
sentinel is not permitted (Emitter.Return panics on Done, and a Filterer
or Mapper answers nil, Skipped or a domain error). -/
inductive GenErr : Type where
  | skipped : GenErr
  | other (code : Nat) : GenErr
deriving DecidableEq

/-- Conversion of a callback error to a plain Go error value. -/
def GenErr.toErr : GenErr → Err
  | .skipped => .skipped
  | .other n => .other n

/-- FilterOut is the result of Filterer.Filter or Mapper.Map: nil (keep),
Skipped, or a domain error. -/
abbrev FilterOut := Option GenErr

/-- NextRes models the observable outcome of one Next call: either the
call returned nil and wrote a value to the caller slot, or it returned a
non-nil error. -/
inductive NextRes : Type where
  | val (v : Int) : NextRes
  | err (e : Err) : NextRes
deriving DecidableEq

/-- Translation of the helper finish from functional.go: a nil close
result is reported as Done, any other error verbatim. -/
def finishE (r : GoError) : Err :=
  match r with
  | none => .done
  | some e => e

/-- GenStep is one step of a generator emitting function or of an
external stream script: emit a value (Return nil after writing through
the pointer) or fail with a non-Done error (Return err). -/
inductive GenStep : Type where
  | emit (v : Int) : GenStep
  | fail (e : GenErr) : GenStep
deriving DecidableEq

/-- Filterer mirrors the Filterer interface together with the two
combinator implementations andFilterer and orFilterer from
functional.go.  A function filterer receives the caller slot and may
both answer and mutate it, hence `Int → FilterOut × Int`. -/
inductive Filterer : Type where
  | funcF (g : Int → FilterOut × Int) : Filterer
  | andF (fs : List Filterer) : Filterer
  | orF (fs : List Filterer) : Filterer

mutual

/-- Translation of Filterer.Filter: funcFilterer applies its function,
andFilterer and orFilterer loop over their members threading the same
slot. -/
def runFilterer : Filterer → Int → FilterOut × Int
  | .funcF g, x => g x
  | .andF fs, x => runAnd fs x
  | .orF fs, x => runOr fs x

/-- Translation of andFilterer.Filter: return the first non-nil answer,
nil if every member answers nil. -/
def runAnd : List Filterer → Int → FilterOut × Int
  | [], x => (none, x)
  | f :: t, x =>
    match runFilterer f x with
    | (none, x') => runAnd t x'
    | r => r

/-- Translation of orFilterer.Filter: return the first answer that is
not Skipped, Skipped if every member answered Skipped. -/
def runOr : List Filterer → Int → FilterOut × Int
  | [], x => (some .skipped, x)
  | f :: t, x =>
    match runFilterer f x with
    | (some .skipped, x') => runOr t x'
    | r => r

end

/-- Stream' is the state space of the streams the claims quantify over.
`extS` and `rowS` carry instrumentation: `nextCalls` counts effective
Next calls on an external stream, `closeCalls` counts calls that reached
the underlying closer, `closeResults` scripts the results of successive
closer calls (an exhausted script answers nil), and `closerGone` is the
nil-ed closer pointer of closeUnder. -/
inductive Stream' : Type where
  | nilS : Stream'
  | extS (script : List GenStep) (nextCalls : Nat)
      (closeResults : List GoError) (closerGone : Bool) (closeCalls : Nat) : Stream'
  | rowS (rows : List Int) (rowsDone : Bool)
      (closeResults : List GoError) (closerGone : Bool) (closeCalls : Nat) : Stream'
  | genS (steps : List GenStep) (cleanup : Option GenErr)
      (closed : Bool) (closeResult : GoError) : Stream'
  | filterS (f : Filterer) (inner : Stream') : Stream'
  | mapS (m : Int → FilterOut × Int) (inner : Stream') : Stream'
  | sliceS (inner : Stream') (start stop index : Int) (done : Bool) : Stream'
  | takeS (f : Option Filterer) (inner : Stream') : Stream'
  | dropS (f : Option Filterer) (inner : Stream') : Stream'
  | concatS (processed : List Stream') (rest : List Stream') : Stream'

/-- Translation of closeUnder from functional.go over an instrumented
closer: a nil closer pointer answers nil at once; otherwise the
underlying Close runs (scripted by closeResults, counted by calls) and
the pointer is nil-ed exactly when the result is nil. -/
def closeUnder (results : List GoError) (gone : Bool) (calls : Nat) :
    GoError × List GoError × Bool × Nat :=
  if gone then (none, results, true, calls)
  else
    let r := results.headD none
    (r, results.tail, r.isNone, calls + 1)

mutual

/-- Translation of the Close methods: nilStream and plain sources answer
nil; rowStream (and the instrumented external stream) go through
closeUnder; regularGenerator.Close answers the recorded close result
when already closed and otherwise performs the close handshake, whose
result is the cleanup error of the emitting function; every
single-inner wrapper promotes Close to its inner stream;
concatStream.Close closes every substream and reports the first
non-nil result. -/
def closeS : Stream' → GoError × Stream'
  | .nilS => (none, .nilS)
  | .extS sc c rs g cc =>
    let (r, rs', g', cc') := closeUnder rs g cc
    (r, .extS sc c rs' g' cc')
  | .rowS rows d rs g cc =>
    let (r, rs', g', cc') := closeUnder rs g cc
    (r, .rowS rows d rs' g' cc')
  | .genS steps cleanup closed cr =>
    if closed then (cr, .genS steps cleanup true cr)
    else
      let r : GoError := cleanup.map GenErr.toErr
      (r, .genS [] cleanup true r)
  | .filterS f inner =>
    let (r, i) := closeS inner
    (r, .filterS f i)
  | .mapS m inner =>
    let (r, i) := closeS inner
    (r, .mapS m i)
  | .sliceS inner a b i d =>
    let (r, j) := closeS inner
    (r, .sliceS j a b i d)
  | .takeS f inner =>
    let (r, i) := closeS inner
    (r, .takeS f i)
  | .dropS f inner =>
    let (r, i) := closeS inner
    (r, .dropS f i)
  | .concatS p q =>
    let (r1, p') := closeList p
    let (r2, q') := closeList q
    (if r1.isSome then r1 else r2, .concatS p' q')

/-- Close every stream of a list in order, keeping the first non-nil
result, as the loop of concatStream.Close does. -/
def closeList : List Stream' → GoError × List Stream'
  | [] => (none, [])
  | s :: t =>
    let (r, s') := closeS s
    let (rt, t') := closeList t
    (if r.isSome then r else rt, s' :: t')

end

/-- Translation of the Next methods, fuel-indexed.  Every recursive call
(a structural descent into an inner stream, or a loop iteration of the
filter/map/drop retry loops, the slice skip loop and the concat advance
loop) consumes one unit of fuel; `none` means the fuel ran out before
the call returned. -/
def nextF : Nat → Stream' → Option (NextRes × Stream')
  | 0, _ => none
  | _ + 1, .nilS => some (.err .done, .nilS)
  | _ + 1, .extS [] c rs g cc => some (.err .done, .extS [] c rs g cc)
  | _ + 1, .extS (.emit v :: t) c rs g cc =>
    some (.val v, .extS t (c + 1) rs g cc)
  | _ + 1, .extS (.fail e :: t) c rs g cc =>
    some (.err e.toErr, .extS t (c + 1) rs g cc)
  | _ + 1, .rowS rows d rs g cc =>
    if d then some (.err .done, .rowS rows true rs g cc)
    else
      match rows with
      | [] =>
        let (r, rs', g', cc') := closeUnder rs g cc
        some (.err (finishE r), .rowS [] true rs' g' cc')
      | v :: t => some (.val v, .rowS t false rs g cc)
  | _ + 1, .genS steps cleanup closed cr =>
    if closed then some (.err .done, .genS steps cleanup true cr)
    else
      match steps with
      | [] =>
        let r : GoError := cleanup.map GenErr.toErr
        some (.err (finishE r), .genS [] cleanup true r)
      | .emit v :: t => some (.val v, .genS t cleanup false cr)
      | .fail e :: t => some (.err e.toErr, .genS t cleanup false cr)
  | fuel + 1, .filterS f inner =>
    match nextF fuel inner with
    | none => none
    | some (.err e, inner') => some (.err e, .filterS f inner')
    | some (.val v, inner') =>
      match runFilterer f v with
      | (none, v') => some (.val v', .filterS f inner')
      | (some .skipped, _) => nextF fuel (.filterS f inner')
      | (some (.other n), _) => some (.err (.other n), .filterS f inner')
  | fuel + 1, .mapS m inner =>
    match nextF fuel inner with
    | none => none
    | some (.err e, inner') => some (.err e, .mapS m inner')
    | some (.val v, inner') =>
      match m v with
      | (none, u) => some (.val u, .mapS m inner')
      | (some .skipped, _) => nextF fuel (.mapS m inner')
      | (some (.other n), _) => some (.err (.other n), .mapS m inner')
  | fuel + 1, .sliceS inner start stop index d =>
    if d then some (.err .done, .sliceS inner start stop index true)
    else if stop < 0 ∨ index < stop then
      match nextF fuel inner with
      | none => none
      | some (.err .done, inner') =>
        some (.err .done, .sliceS inner' start stop index true)
      | some (.err e, inner') =>
        some (.err e, .sliceS inner' start stop index false)
      | some (.val v, inner') =>
        if index + 1 > start then
          some (.val v, .sliceS inner' start stop (index + 1) false)
        else nextF fuel (.sliceS inner' start stop (index + 1) false)
    else
      let (r, inner') := closeS inner
      some (.err (finishE r), .sliceS inner' start stop index true)
  | _ + 1, .takeS none inner => some (.err .done, .takeS none inner)
  | fuel + 1, .takeS (some f) inner =>
    match nextF fuel inner with
    | none => none
    | some (.err .done, inner') => some (.err .done, .takeS none inner')
    | some (.err e, inner') => some (.err e, .takeS (some f) inner')
    | some (.val v, inner') =>
      match runFilterer f v with
      | (none, v') => some (.val v', .takeS (some f) inner')
      | (some (.other n), _) => some (.err (.other n), .takeS (some f) inner')
      | (some .skipped, _) =>
        let (r, inner2) := closeS inner'
        some (.err (finishE r), .takeS none inner2)
  | fuel + 1, .dropS fo inner =>
    match nextF fuel inner with
    | none => none
    | some (res, inner') =>
      match fo with
      | none => some (res, .dropS none inner')
      | some f =>
        match res with
        | .err e => some (.err e, .dropS (some f) inner')
        | .val v =>
          match runFilterer f v with
          | (some .skipped, v') => some (.val v', .dropS none inner')
          | (some (.other n), _) => some (.err (.other n), .dropS (some f) inner')
          | (none, _) => nextF fuel (.dropS (some f) inner')
  | _ + 1, .concatS p [] => some (.err .done, .concatS p [])
  | fuel + 1, .concatS p (s :: t) =>
    match nextF fuel s with
    | none => none
    | some (.err .done, s') => nextF fuel (.concatS (p ++ [s']) t)
    | some (res, s') => some (res, .concatS p (s' :: t))

/-- Translation of NilStream from functional.go. -/
def NilStream' : Stream' := .nilS

/-- Translation of Concat from functional.go: it always allocates a new
concatStream around the given list of streams. -/
def Concat' (ss : List Stream') : Stream' := .concatS [] ss

/-- Translation of Slice from functional.go. -/
def Slice' (s : Stream') (start stop : Int) : Stream' :=
  .sliceS s start stop 0 false

/-- Translation of TakeWhile from functional.go. -/
def TakeWhile' (f : Filterer) (s : Stream') : Stream' := .takeS (some f) s

/-- Translation of DropWhile from functional.go. -/
def DropWhile' (f : Filterer) (s : Stream') : Stream' := .dropS (some f) s

/-- Translation of NewGenerator from generators.go: the emitting
function is represented by the outcomes it passes to Return; its own
return value (the cleanup error) is nil. -/
def NewGenerator' (steps : List GenStep) : Stream' :=
  .genS steps none false none

/-- Translation of NewGeneratorCloseMayFail from generators.go. -/
def NewGeneratorCloseMayFail' (steps : List GenStep) (cleanup : Option GenErr) :
    Stream' :=
  .genS steps cleanup false none

/-- Translation of andList from functional.go. -/
def andList : Filterer → List Filterer
  | .andF l => l
  | f => [f]

/-- Translation of orList from functional.go. -/
def orList : Filterer → List Filterer
  | .orF l => l
  | f => [f]

/-- Translation of All from functional.go: with no arguments this is
trueFilterer, which is andFilterer(nil), so the flattening formula
covers that case as well. -/
def All' (fs : List Filterer) : Filterer :=
  .andF (fs.flatMap andList)

/-- Translation of Any from functional.go. -/
def Any' (fs : List Filterer) : Filterer :=
  .orF (fs.flatMap orList)

/-- Translation of Filter from functional.go: wrapping a filterStream
combines the two filterers with All instead of nesting. -/
def Filter' (f : Filterer) (s : Stream') : Stream' :=
  match s with
  | .filterS g inner => .filterS (All' [g, f]) inner
  | _ => .filterS f s

/-- Introspection helper: is this state a filterStream. -/
def isFilterS : Stream' → Bool
  | .filterS _ _ => true
  | _ => false

/-- 64-bit two-complement wrap-around, the semantics of Go int
arithmetic on the usual 64-bit platform. -/
def wrap64 (x : Int) : Int := (x + 2 ^ 63) % 2 ^ 64 - 2 ^ 63

/-- State of the count stream from functional.go (Count/CountFrom). -/
structure CountS : Type where
  start : Int
  step : Int
deriving DecidableEq

/-- Translation of count.Next: write start to the slot, then advance
start by step (Go addition wraps). -/
def countNext (c : CountS) : Int × CountS :=
  (c.start, ⟨wrap64 (c.start + c.step), c.step⟩)

/-- Translation of count.Close: always nil, no state change. -/
def countClose (c : CountS) : GoError × CountS := (none, c)

/-- Translation of CountFrom from functional.go. -/
def CountFrom' (start step : Int) : CountS := ⟨start, step⟩

/-- Translation of Count from functional.go. -/
def Count' : CountS := ⟨0, 1⟩

/-- State of the count stream after n Next calls. -/
def countStateAt (c : CountS) : Nat → CountS
  | 0 => c
  | n + 1 => (countNext (countStateAt c n)).2

/-- Value written by the (n+1)-th Next call on the count stream. -/
def countValueAt (c : CountS) (n : Nat) : Int :=
  (countNext (countStateAt c n)).1

/-- Translation of EmitAll from generators.go.  The consumer of the
associated Emitter is modelled by the number k of slots it will still
supply before EmitPtr answers nil; the returned list records every
outcome handed to Return.  When the source answers Done, EmitAll
returns nil without closing the source; when the consumer closes first,
EmitAll closes the source and returns finish of that close. -/
def EmitAllF (fuel : Nat) : Nat → Stream' → Option (GoError × List NextRes × Stream')
  | 0, s =>
    let (r, s') := closeS s
    some (some (finishE r), [], s')
  | k + 1, s =>
    match nextF fuel s with
    | none => none
    | some (.err .done, s') => some (none, [], s')
    | some (res, s') =>
      match EmitAllF fuel k s' with
      | none => none
      | some (r, ds, sf) => some (r, res :: ds, sf)

/-- One asyncReturn round of MultiConsume from consumers.go, with each
consumer modelled by the number of Next calls it still intends to make:
the round delivers the pending outcome to every active consumer and
collects which of them request another slot (none = the consumer sent
the nil end-of-stream pointer and is finished). -/
def mcRound (sts : List (Option Nat)) : List (Option Nat) :=
  sts.map fun st =>
    match st with
    | none => none
    | some 0 => none
    | some (m + 1) => some m

/-- Does any consumer adapter still request values. -/
def anyActive (sts : List (Option Nat)) : Bool := sts.any Option.isSome

/-- Translation of the MultiConsume main loop: while asyncReturn reports
an active consumer, pull one value from the upstream and broadcast it;
afterwards close the upstream exactly once and return that close
result.  `rounds` is loop fuel; `none` means it ran out. -/
def mcLoopF (fuel : Nat) : Nat → Stream' → List (Option Nat) →
    Option (GoError × Stream' × List (Option Nat))
  | 0, _, _ => none
  | rounds + 1, s, sts =>
    let sts' := mcRound sts
    if anyActive sts' then
      match nextF fuel s with
      | none => none
      | some (_, s') => mcLoopF fuel rounds s' sts'
    else
      let (r, s') := closeS s
      some (r, s', sts')

/-- Translation of MultiConsume from consumers.go over consumer oracles
given by their request counts. -/
def MultiConsume' (fuel rounds : Nat) (s : Stream') (consumers : List Nat) :
    Option (GoError × Stream' × List (Option Nat)) :=
  mcLoopF fuel rounds s (consumers.map some)

/-- Translation of splitStream.Close from consumers.go: it always
answers nil and touches nothing. -/
def splitStreamClose : GoError := none

/-- State component of a Next result, for stating counterexamples. -/
def stateOf (r : Option (NextRes × Stream')) : Stream' :=
  match r with
  | some (_, s) => s
  | none => .nilS

/-- Inner stream of a slice wrapper state. -/
def sliceInner : Stream' → Stream'
  | .sliceS i _ _ _ _ => i
  | s => s

/-- Count of effective Next calls observed by an external base stream. -/
def extNextCalls : Stream' → Nat
  | .extS _ c _ _ _ => c
  | _ => 0

/-- Count of calls that reached the underlying closer of an external or
row base stream. -/
def closeCallsOf : Stream' → Nat
  | .extS _ _ _ _ cc => cc
  | .rowS _ _ _ _ cc => cc
  | _ => 0

/-- Discriminator: is this state the nilStream constant. -/
def isNilS : Stream' → Bool
  | .nilS => true
  | _ => false

/-- Total pending-request measure of the consumer adapters: an active
consumer with m requests left contributes m + 1 (the final nil
handoff), a finished one contributes 0. -/
def mcMeasure (sts : List (Option Nat)) : Nat :=
  (sts.map fun st => match st with | none => 0 | some m => m + 1).sum

/-- Skip-freedom of one scripted Go error value. -/
def noSkipErr (r : GoError) : Bool := decide (r ≠ some Err.skipped)

/-- Skip-freedom of one generator or external script step. -/
def noSkipStep : GenStep → Bool
  | .fail .skipped => false
  | _ => true

mutual

/-- A stream state is skip-free when none of its base sources (external
scripts, generator steps and cleanup results, scripted closers) ever
produce the Skipped sentinel themselves. -/
def noSkipB : Stream' → Bool
  | .nilS => true
  | .extS sc _ rs _ _ => sc.all noSkipStep && rs.all noSkipErr
  | .rowS _ _ rs _ _ => rs.all noSkipErr
  | .genS steps cleanup _ cr =>
    steps.all noSkipStep && decide (cleanup ≠ some GenErr.skipped) && noSkipErr cr
  | .filterS _ inner => noSkipB inner
  | .mapS _ inner => noSkipB inner
  | .sliceS inner _ _ _ _ => noSkipB inner
  | .takeS _ inner => noSkipB inner
  | .dropS _ inner => noSkipB inner
  | .concatS p q => noSkipLB p && noSkipLB q

/-- Skip-freedom of a list of stream states. -/
def noSkipLB : List Stream' → Bool
  | [] => true
  | s :: t => noSkipB s && noSkipLB t

end

/-- Helper: a callback error never converts to the Done sentinel. -/
theorem toErr_ne_done (e : GenErr) : e.toErr ≠ .done := by
  cases e <;> simp [GenErr.toErr]

/-- Done is sticky: whenever some Next call on a stream state returns
Done, every later Next call that returns at all returns Done again and
leaves the state untouched. -/
theorem nextDoneSticky (fuel₁ : Nat) (s s' : Stream')
    (h : nextF fuel₁ s = some (.err .done, s')) :
    ∀ (fuel₂ : Nat) (r : NextRes) (s'' : Stream'),
      nextF fuel₂ s' = some (r, s'') → r = .err .done ∧ s'' = s' := by
  induction fuel₁ generalizing s s' with
  | zero => simp [nextF] at h
  | succ n ih =>
    intro fuel₂ r s'' h2
    match s with
    | .nilS =>
      simp [nextF] at h
      obtain ⟨rfl⟩ := h
      match fuel₂ with
      | 0 => simp [nextF] at h2
      | k + 1 =>
        simp [nextF] at h2
        exact ⟨h2.1.symm ▸ rfl, h2.2.symm⟩
    | .extS sc c rs g cc =>
      match sc with
      | [] =>
        simp [nextF] at h
        obtain ⟨rfl⟩ := h
        match fuel₂ with
        | 0 => simp [nextF] at h2
        | k + 1 =>
          simp [nextF] at h2
          exact ⟨h2.1.symm ▸ rfl, h2.2.symm⟩
      | .emit v :: t => simp [nextF] at h
      | .fail e :: t =>
        simp [nextF] at h
        exact absurd h.1 (toErr_ne_done e)
    | .rowS rows d rs g cc =>
      match d with
      | true =>
        simp [nextF] at h
        obtain ⟨rfl⟩ := h
        match fuel₂ with
        | 0 => simp [nextF] at h2
        | k + 1 =>
          simp [nextF] at h2
          exact ⟨h2.1.symm ▸ rfl, h2.2.symm⟩
      | false =>
        match rows with
        | [] =>
          simp [nextF] at h
          obtain ⟨-, rfl⟩ := h
          match fuel₂ with
          | 0 => simp [nextF] at h2
          | k + 1 =>
            simp [nextF] at h2
            exact ⟨h2.1.symm ▸ rfl, h2.2.symm⟩
        | v :: t => simp [nextF] at h
    | .genS steps cleanup closed cr =>
      match closed with
      | true =>
        simp [nextF] at h
        obtain ⟨rfl⟩ := h
        match fuel₂ with
        | 0 => simp [nextF] at h2
        | k + 1 =>
          simp [nextF] at h2
          exact ⟨h2.1.symm ▸ rfl, h2.2.symm⟩
      | false =>
        match steps with
        | [] =>
          simp [nextF] at h
          obtain ⟨-, rfl⟩ := h
          match fuel₂ with
          | 0 => simp [nextF] at h2
          | k + 1 =>
            simp [nextF] at h2
            exact ⟨h2.1.symm ▸ rfl, h2.2.symm⟩
        | .emit v :: t => simp [nextF] at h
        | .fail e :: t =>
          simp [nextF] at h
          exact absurd h.1 (toErr_ne_done e)
    | .filterS f inner =>
      simp only [nextF] at h
      rcases hin : nextF n inner with _ | ⟨res, inner'⟩ <;> rw [hin] at h
      · simp at h
      · match res with
        | .err e =>
          simp at h
          obtain ⟨rfl, rfl⟩ := h
          match fuel₂ with
          | 0 => simp [nextF] at h2
          | k + 1 =>
            simp only [nextF] at h2
            rcases hin2 : nextF k inner' with _ | ⟨res2, inner2⟩ <;> rw [hin2] at h2
            · simp at h2
            · obtain ⟨rfl, rfl⟩ := ih inner inner' hin k res2 inner2 hin2
              simp at h2
              exact ⟨h2.1.symm ▸ rfl, h2.2.symm⟩
        | .val v =>
          simp only [] at h
          rcases hf : runFilterer f v with ⟨fo, v'⟩
          rw [hf] at h
          match fo with
          | none => simp at h
          | some .skipped => exact ih _ _ h fuel₂ r s'' h2
          | some (.other m) => simp at h
    | .mapS m inner =>
      simp only [nextF] at h
      rcases hin : nextF n inner with _ | ⟨res, inner'⟩ <;> rw [hin] at h
      · simp at h
      · match res with
        | .err e =>
          simp at h
          obtain ⟨rfl, rfl⟩ := h
          match fuel₂ with
          | 0 => simp [nextF] at h2
          | k + 1 =>
            simp only [nextF] at h2
            rcases hin2 : nextF k inner' with _ | ⟨res2, inner2⟩ <;> rw [hin2] at h2
            · simp at h2
            · obtain ⟨rfl, rfl⟩ := ih inner inner' hin k res2 inner2 hin2
              simp at h2
              exact ⟨h2.1.symm ▸ rfl, h2.2.symm⟩
        | .val v =>
          simp only [] at h
          rcases hf : m v with ⟨fo, v'⟩
          rw [hf] at h
          match fo with
          | none => simp at h
          | some .skipped => exact ih _ _ h fuel₂ r s'' h2
          | some (.other k) => simp at h
    | .sliceS inner start stop index d =>
      match d with
      | true =>
        simp [nextF] at h
        obtain ⟨rfl⟩ := h
        match fuel₂ with
        | 0 => simp [nextF] at h2
        | k + 1 =>
          simp [nextF] at h2
          exact ⟨h2.1.symm ▸ rfl, h2.2.symm⟩
      | false =>
        simp only [nextF, Bool.false_eq_true, if_false] at h
        by_cases hc : stop < 0 ∨ index < stop
        · rw [if_pos hc] at h
          rcases hin : nextF n inner with _ | ⟨res, inner'⟩ <;> rw [hin] at h
          · simp at h
          · match res with
            | .err .done =>
              simp at h
              obtain ⟨rfl⟩ := h
              match fuel₂ with
              | 0 => simp [nextF] at h2
              | k + 1 =>
                simp [nextF] at h2
                exact ⟨h2.1.symm ▸ rfl, h2.2.symm⟩
            | .err .skipped => simp at h
            | .err (.other m) => simp at h
            | .val v =>
              simp only [] at h
              by_cases hv : index + 1 > start
              · rw [if_pos hv] at h
                simp at h
              · rw [if_neg hv] at h
                exact ih _ _ h fuel₂ r s'' h2
        · rw [if_neg hc] at h
          rcases hcl : closeS inner with ⟨cr, inner'⟩
          rw [hcl] at h
          simp at h
          obtain ⟨-, rfl⟩ := h
          match fuel₂ with
          | 0 => simp [nextF] at h2
          | k + 1 =>
            simp [nextF] at h2
            exact ⟨h2.1.symm ▸ rfl, h2.2.symm⟩
    | .takeS fo inner =>
      match fo with
      | none =>
        simp [nextF] at h
        obtain ⟨rfl⟩ := h
        match fuel₂ with
        | 0 => simp [nextF] at h2
        | k + 1 =>
          simp [nextF] at h2
          exact ⟨h2.1.symm ▸ rfl, h2.2.symm⟩
      | some f =>
        simp only [nextF] at h
        rcases hin : nextF n inner with _ | ⟨res, inner'⟩ <;> rw [hin] at h
        · simp at h
        · match res with
          | .err .done =>
            simp at h
            obtain ⟨rfl⟩ := h
            match fuel₂ with
            | 0 => simp [nextF] at h2
            | k + 1 =>
              simp [nextF] at h2
              exact ⟨h2.1.symm ▸ rfl, h2.2.symm⟩
          | .err .skipped => simp at h
          | .err (.other m) => simp at h
          | .val v =>
            simp only [] at h
            rcases hf : runFilterer f v with ⟨fo2, v'⟩
            rw [hf] at h
            match fo2 with
            | none => simp at h
            | some (.other m) => simp at h
            | some .skipped =>
              simp only [] at h
              rcases hcl : closeS inner' with ⟨cr, inner2⟩
              rw [hcl] at h
              simp at h
              obtain ⟨-, rfl⟩ := h
              match fuel₂ with
              | 0 => simp [nextF] at h2
              | k + 1 =>
                simp [nextF] at h2
                exact ⟨h2.1.symm ▸ rfl, h2.2.symm⟩
    | .dropS fo inner =>
      simp only [nextF] at h
      rcases hin : nextF n inner with _ | ⟨res, inner'⟩ <;> rw [hin] at h
      · simp at h
      · match fo with
        | none =>
          simp at h
          obtain ⟨rfl, rfl⟩ := h
          match fuel₂ with
          | 0 => simp [nextF] at h2
          | k + 1 =>
            simp only [nextF] at h2
            rcases hin2 : nextF k inner' with _ | ⟨res2, inner2⟩ <;> rw [hin2] at h2
            · simp at h2
            · obtain ⟨rfl, rfl⟩ := ih inner inner' hin k res2 inner2 hin2
              simp at h2
              exact ⟨h2.1.symm ▸ rfl, h2.2.symm⟩
        | some f =>
          match res with
          | .err e =>
            simp at h
            obtain ⟨rfl, rfl⟩ := h
            match fuel₂ with
            | 0 => simp [nextF] at h2
            | k + 1 =>
              simp only [nextF] at h2
              rcases hin2 : nextF k inner' with _ | ⟨res2, inner2⟩ <;> rw [hin2] at h2
              · simp at h2
              · obtain ⟨rfl, rfl⟩ := ih inner inner' hin k res2 inner2 hin2
                simp at h2
                exact ⟨h2.1.symm ▸ rfl, h2.2.symm⟩
          | .val v =>
            simp only [] at h
            rcases hf : runFilterer f v with ⟨fo2, v'⟩
            rw [hf] at h
            match fo2 with
            | some .skipped => simp at h
            | some (.other m) => simp at h
            | none => exact ih _ _ h fuel₂ r s'' h2
    | .concatS p q =>
      match q with
      | [] =>
        simp [nextF] at h
        obtain ⟨rfl⟩ := h
        match fuel₂ with
        | 0 => simp [nextF] at h2
        | k + 1 =>
          simp [nextF] at h2
          exact ⟨h2.1.symm ▸ rfl, h2.2.symm⟩
      | s0 :: t =>
        simp only [nextF] at h
        rcases hin : nextF n s0 with _ | ⟨res, s0'⟩ <;> rw [hin] at h
        · simp at h
        · match res with
          | .err .done => exact ih _ _ h fuel₂ r s'' h2
          | .err .skipped => simp at h
          | .err (.other m) => simp at h
          | .val v => simp at h


theorem noSkipLB_append (p q : List Stream') :
    noSkipLB (p ++ q) = (noSkipLB p && noSkipLB q) := by
  induction p with
  | nil => simp [noSkipLB]
  | cons s t ih => simp [noSkipLB, ih, Bool.and_assoc]

mutual

/-- Closing a skip-free state never reports Skipped and preserves
skip-freedom. -/
theorem closeNoSkip (s : Stream') (h : noSkipB s = true) :
    (closeS s).1 ≠ some Err.skipped ∧ noSkipB (closeS s).2 = true := by
  match s with
  | .nilS => simp [closeS, noSkipB]
  | .extS sc c rs g cc =>
    simp [noSkipB] at h
    match g with
    | true =>
      simp [closeS, closeUnder, noSkipB]
      exact h
    | false =>
      match rs with
      | [] =>
        simp [closeS, closeUnder, noSkipB]
        exact h.1
      | r :: t =>
        simp [noSkipErr, decide_eq_true_eq] at h
        simp [closeS, closeUnder, noSkipB, noSkipErr, decide_eq_true_eq]
        exact ⟨h.2.1, h.1, h.2.2⟩
  | .rowS rows d rs g cc =>
    simp [noSkipB] at h
    match g with
    | true => simp [closeS, closeUnder, noSkipB]; exact h
    | false =>
      match rs with
      | [] => simp [closeS, closeUnder, noSkipB]
      | r :: t =>
        simp [noSkipErr, decide_eq_true_eq] at h
        simp [closeS, closeUnder, noSkipB, noSkipErr, decide_eq_true_eq]
        exact ⟨h.1, h.2⟩
  | .genS steps cleanup closed cr =>
    match closed with
    | true =>
      simp_all [closeS, noSkipB, noSkipErr, decide_eq_true_eq]
    | false =>
      match cleanup with
      | none => simp_all [closeS, noSkipB, noSkipErr, decide_eq_true_eq]
      | some ge =>
        match ge with
        | .skipped => simp_all [noSkipB, noSkipErr, decide_eq_true_eq]
        | .other n =>
          simp_all [closeS, noSkipB, noSkipErr, GenErr.toErr, decide_eq_true_eq]
  | .filterS f inner =>
    simp [noSkipB] at h
    have := closeNoSkip inner h
    rcases hcl : closeS inner with ⟨r, i⟩
    rw [hcl] at this
    simp [closeS, hcl, noSkipB]
    exact this
  | .mapS m inner =>
    simp [noSkipB] at h
    have := closeNoSkip inner h
    rcases hcl : closeS inner with ⟨r, i⟩
    rw [hcl] at this
    simp [closeS, hcl, noSkipB]
    exact this
  | .sliceS inner a b i d =>
    simp [noSkipB] at h
    have := closeNoSkip inner h
    rcases hcl : closeS inner with ⟨r, j⟩
    rw [hcl] at this
    simp [closeS, hcl, noSkipB]
    exact this
  | .takeS f inner =>
    simp [noSkipB] at h
    have := closeNoSkip inner h
    rcases hcl : closeS inner with ⟨r, i⟩
    rw [hcl] at this
    simp [closeS, hcl, noSkipB]
    exact this
  | .dropS f inner =>
    simp [noSkipB] at h
    have := closeNoSkip inner h
    rcases hcl : closeS inner with ⟨r, i⟩
    rw [hcl] at this
    simp [closeS, hcl, noSkipB]
    exact this
  | .concatS p q =>
    simp [noSkipB] at h
    have hp := closeListNoSkip p h.1
    have hq := closeListNoSkip q h.2
    rcases hclp : closeList p with ⟨r1, p'⟩
    rcases hclq : closeList q with ⟨r2, q'⟩
    rw [hclp] at hp
    rw [hclq] at hq
    simp [closeS, hclp, hclq, noSkipB]
    constructor
    · match r1 with
      | none => simpa using hq.1
      | some e => simpa using hp.1
    · exact ⟨hp.2, hq.2⟩

/-- Closing a skip-free list of states never reports Skipped and
preserves skip-freedom. -/
theorem closeListNoSkip (l : List Stream') (h : noSkipLB l = true) :
    (closeList l).1 ≠ some Err.skipped ∧ noSkipLB (closeList l).2 = true := by
  match l with
  | [] => simp [closeList, noSkipLB]
  | s :: t =>
    simp [noSkipLB] at h
    have hs := closeNoSkip s h.1
    have ht := closeListNoSkip t h.2
    rcases hcl : closeS s with ⟨r, s'⟩
    rcases hclt : closeList t with ⟨rt, t'⟩
    rw [hcl] at hs
    rw [hclt] at ht
    simp [closeList, hcl, hclt, noSkipLB]
    constructor
    · match r with
      | none => simpa using ht.1
      | some e => simpa using hs.1
    · exact ⟨hs.2, ht.2⟩

end


/-- Next on a skip-free state never returns the Skipped sentinel to its
caller and preserves skip-freedom: Skipped is consumed internally by
filter, map, takeWhile and dropWhile wrappers. -/
theorem nextNoSkip (fuel : Nat) (s : Stream') (res : NextRes) (s' : Stream')
    (hn : noSkipB s = true) (h : nextF fuel s = some (res, s')) :
    res ≠ .err .skipped ∧ noSkipB s' = true := by
  induction fuel generalizing s res s' with
  | zero => simp [nextF] at h
  | succ n ih =>
    match s with
    | .nilS =>
      simp [nextF] at h
      obtain ⟨rfl, rfl⟩ := h
      simp_all [noSkipB]
    | .extS sc c rs g cc =>
      match sc with
      | [] =>
        simp [nextF] at h
        obtain ⟨rfl, rfl⟩ := h
        simp_all [noSkipB]
      | .emit v :: t =>
        simp [nextF] at h
        obtain ⟨rfl, rfl⟩ := h
        simp_all [noSkipB, List.all_cons]
      | .fail e :: t =>
        simp [nextF] at h
        obtain ⟨rfl, rfl⟩ := h
        match e with
        | .skipped => simp_all [noSkipB, List.all_cons, noSkipStep]
        | .other m => simp_all [noSkipB, List.all_cons, GenErr.toErr]
    | .rowS rows d rs g cc =>
      match d with
      | true =>
        simp [nextF] at h
        obtain ⟨rfl, rfl⟩ := h
        simp_all [noSkipB]
      | false =>
        match rows with
        | v :: t =>
          simp [nextF] at h
          obtain ⟨rfl, rfl⟩ := h
          simp_all [noSkipB]
        | [] =>
          match g with
          | true =>
            simp [nextF, closeUnder] at h
            obtain ⟨rfl, rfl⟩ := h
            simp_all [noSkipB, finishE]
          | false =>
            match rs with
            | [] =>
              simp [nextF, closeUnder] at h
              obtain ⟨rfl, rfl⟩ := h
              simp_all [noSkipB, finishE]
            | r :: t =>
              simp [nextF, closeUnder] at h
              obtain ⟨rfl, rfl⟩ := h
              simp_all [noSkipB, noSkipErr, List.all_cons, decide_eq_true_eq]
              match r with
              | none => simp [finishE]
              | some e => simpa [finishE] using hn.1
    | .genS steps cleanup closed cr =>
      match closed with
      | true =>
        simp [nextF] at h
        obtain ⟨rfl, rfl⟩ := h
        simp_all [noSkipB]
      | false =>
        match steps with
        | .emit v :: t =>
          simp [nextF] at h
          obtain ⟨rfl, rfl⟩ := h
          simp_all [noSkipB, List.all_cons]
        | .fail e :: t =>
          simp [nextF] at h
          obtain ⟨rfl, rfl⟩ := h
          match e with
          | .skipped => simp_all [noSkipB, List.all_cons, noSkipStep]
          | .other m => simp_all [noSkipB, List.all_cons, GenErr.toErr]
        | [] =>
          simp [nextF] at h
          obtain ⟨rfl, rfl⟩ := h
          match cleanup with
          | none => simp_all [noSkipB, noSkipErr, finishE, Option.map, decide_eq_true_eq]
          | some ge =>
            match ge with
            | .skipped => simp_all [noSkipB, noSkipErr, decide_eq_true_eq]
            | .other m =>
              simp_all [noSkipB, noSkipErr, finishE, Option.map, GenErr.toErr,
                decide_eq_true_eq]
    | .filterS f inner =>
      simp only [noSkipB] at hn
      simp only [nextF] at h
      rcases hin : nextF n inner with _ | ⟨res0, inner'⟩ <;> rw [hin] at h
      · simp at h
      · obtain ⟨hr0, hi'⟩ := ih inner res0 inner' hn hin
        match res0 with
        | .err e =>
          simp at h
          obtain ⟨rfl, rfl⟩ := h
          refine ⟨?_, by simpa [noSkipB] using hi'⟩
          intro hc
          exact hr0 (by simp_all)
        | .val v =>
          simp only [] at h
          rcases hf : runFilterer f v with ⟨fo, v'⟩
          rw [hf] at h
          match fo with
          | none =>
            simp at h
            obtain ⟨rfl, rfl⟩ := h
            simp_all [noSkipB]
          | some .skipped =>
            exact ih _ _ _ (by simpa [noSkipB] using hi') h
          | some (.other m) =>
            simp at h
            obtain ⟨rfl, rfl⟩ := h
            simp_all [noSkipB]
    | .mapS m inner =>
      simp only [noSkipB] at hn
      simp only [nextF] at h
      rcases hin : nextF n inner with _ | ⟨res0, inner'⟩ <;> rw [hin] at h
      · simp at h
      · obtain ⟨hr0, hi'⟩ := ih inner res0 inner' hn hin
        match res0 with
        | .err e =>
          simp at h
          obtain ⟨rfl, rfl⟩ := h
          refine ⟨?_, by simpa [noSkipB] using hi'⟩
          intro hc
          exact hr0 (by simp_all)
        | .val v =>
          simp only [] at h
          rcases hf : m v with ⟨fo, v'⟩
          rw [hf] at h
          match fo with
          | none =>
            simp at h
            obtain ⟨rfl, rfl⟩ := h
            simp_all [noSkipB]
          | some .skipped =>
            exact ih _ _ _ (by simpa [noSkipB] using hi') h
          | some (.other k) =>
            simp at h
            obtain ⟨rfl, rfl⟩ := h
            simp_all [noSkipB]
    | .sliceS inner start stop index d =>
      simp only [noSkipB] at hn
      match d with
      | true =>
        simp [nextF] at h
        obtain ⟨rfl, rfl⟩ := h
        simp_all [noSkipB]
      | false =>
        simp only [nextF, Bool.false_eq_true, if_false] at h
        by_cases hc : stop < 0 ∨ index < stop
        · rw [if_pos hc] at h
          rcases hin : nextF n inner with _ | ⟨res0, inner'⟩ <;> rw [hin] at h
          · simp at h
          · obtain ⟨hr0, hi'⟩ := ih inner res0 inner' hn hin
            match res0 with
            | .err .done =>
              simp at h
              obtain ⟨rfl, rfl⟩ := h
              simp_all [noSkipB]
            | .err .skipped => exact absurd rfl hr0
            | .err (.other m) =>
              simp at h
              obtain ⟨rfl, rfl⟩ := h
              simp_all [noSkipB]
            | .val v =>
              simp only [] at h
              by_cases hv : index + 1 > start
              · rw [if_pos hv] at h
                simp at h
                obtain ⟨rfl, rfl⟩ := h
                simp_all [noSkipB]
              · rw [if_neg hv] at h
                exact ih _ _ _ (by simpa [noSkipB] using hi') h
        · rw [if_neg hc] at h
          have hcl := closeNoSkip inner hn
          rcases hclv : closeS inner with ⟨cr, inner'⟩
          rw [hclv] at h hcl
          simp at h
          obtain ⟨rfl, rfl⟩ := h
          refine ⟨?_, by simpa [noSkipB] using hcl.2⟩
          intro hx
          apply hcl.1
          match cr, hx with
          | some e, hx => simp_all [finishE]
          | none, hx => simp [finishE] at hx
    | .takeS fo inner =>
      match fo with
      | none =>
        simp [nextF] at h
        obtain ⟨rfl, rfl⟩ := h
        simp_all [noSkipB]
      | some f =>
        simp only [noSkipB] at hn
        simp only [nextF] at h
        rcases hin : nextF n inner with _ | ⟨res0, inner'⟩ <;> rw [hin] at h
        · simp at h
        · obtain ⟨hr0, hi'⟩ := ih inner res0 inner' hn hin
          match res0 with
          | .err .done =>
            simp at h
            obtain ⟨rfl, rfl⟩ := h
            simp_all [noSkipB]
          | .err .skipped => exact absurd rfl hr0
          | .err (.other m) =>
            simp at h
            obtain ⟨rfl, rfl⟩ := h
            simp_all [noSkipB]
          | .val v =>
            simp only [] at h
            rcases hf : runFilterer f v with ⟨fo2, v'⟩
            rw [hf] at h
            match fo2 with
            | none =>
              simp at h
              obtain ⟨rfl, rfl⟩ := h
              simp_all [noSkipB]
            | some (.other m) =>
              simp at h
              obtain ⟨rfl, rfl⟩ := h
              simp_all [noSkipB]
            | some .skipped =>
              simp only [] at h
              have hcl := closeNoSkip inner' (by simpa [noSkipB] using hi')
              rcases hclv : closeS inner' with ⟨cr, inner2⟩
              rw [hclv] at h hcl
              simp at h
              obtain ⟨rfl, rfl⟩ := h
              refine ⟨?_, by simpa [noSkipB] using hcl.2⟩
              intro hx
              apply hcl.1
              match cr, hx with
              | some e, hx => simp_all [finishE]
              | none, hx => simp [finishE] at hx
    | .dropS fo inner =>
      simp only [noSkipB] at hn
      simp only [nextF] at h
      rcases hin : nextF n inner with _ | ⟨res0, inner'⟩ <;> rw [hin] at h
      · simp at h
      · obtain ⟨hr0, hi'⟩ := ih inner res0 inner' hn hin
        match fo with
        | none =>
          simp at h
          obtain ⟨rfl, rfl⟩ := h
          exact ⟨hr0, by simpa [noSkipB] using hi'⟩
        | some f =>
          match res0 with
          | .err e =>
            simp at h
            obtain ⟨rfl, rfl⟩ := h
            exact ⟨hr0, by simpa [noSkipB] using hi'⟩
          | .val v =>
            simp only [] at h
            rcases hf : runFilterer f v with ⟨fo2, v'⟩
            rw [hf] at h
            match fo2 with
            | some .skipped =>
              simp at h
              obtain ⟨rfl, rfl⟩ := h
              simp_all [noSkipB]
            | some (.other m) =>
              simp at h
              obtain ⟨rfl, rfl⟩ := h
              simp_all [noSkipB]
            | none =>
              exact ih _ _ _ (by simpa [noSkipB] using hi') h
    | .concatS p q =>
      simp only [noSkipB] at hn
      match q with
      | [] =>
        simp [nextF] at h
        obtain ⟨rfl, rfl⟩ := h
        simp_all [noSkipB]
      | s0 :: t =>
        simp only [noSkipLB] at hn
        simp only [nextF] at h
        rcases hin : nextF n s0 with _ | ⟨res0, s0'⟩ <;> rw [hin] at h
        · simp at h
        · have hs0 : noSkipB s0 = true := by
            have := hn
            simp at this
            exact this.2.1
          obtain ⟨hr0, hi'⟩ := ih s0 res0 s0' hs0 hin
          match res0 with
          | .err .done =>
            refine ih _ _ _ ?_ h
            have := hn
            simp at this
            simp [noSkipB, noSkipLB, noSkipLB_append, hi', this.1, this.2.2]
          | .err .skipped => exact absurd rfl hr0
          | .err (.other m) =>
            simp at h
            obtain ⟨rfl, rfl⟩ := h
            have := hn
            simp at this
            simp_all [noSkipB, noSkipLB]
          | .val v =>
            simp at h
            obtain ⟨rfl, rfl⟩ := h
            have := hn
            simp at this
            simp_all [noSkipB, noSkipLB]


mutual

/-- Once Close answers nil on any stream state, closing again answers
nil and leaves the state untouched. -/
theorem closeNilFrozen (s s' : Stream') (h : closeS s = (none, s')) :
    closeS s' = (none, s') := by
  match s with
  | .nilS =>
    simp [closeS] at h
    obtain ⟨rfl⟩ := h
    simp [closeS]
  | .extS sc c rs g cc =>
    match g with
    | true =>
      simp [closeS, closeUnder] at h
      obtain ⟨rfl⟩ := h
      simp [closeS, closeUnder]
    | false =>
      match rs with
      | [] =>
        simp [closeS, closeUnder] at h
        obtain ⟨rfl⟩ := h
        simp [closeS, closeUnder]
      | r0 :: t =>
        simp [closeS, closeUnder] at h
        obtain ⟨rfl, rfl⟩ := h
        simp [closeS, closeUnder]
  | .rowS rows d rs g cc =>
    match g with
    | true =>
      simp [closeS, closeUnder] at h
      obtain ⟨rfl⟩ := h
      simp [closeS, closeUnder]
    | false =>
      match rs with
      | [] =>
        simp [closeS, closeUnder] at h
        obtain ⟨rfl⟩ := h
        simp [closeS, closeUnder]
      | r0 :: t =>
        simp [closeS, closeUnder] at h
        obtain ⟨rfl, rfl⟩ := h
        simp [closeS, closeUnder]
  | .genS steps cleanup closed cr =>
    match closed with
    | true =>
      simp [closeS] at h
      obtain ⟨rfl, rfl⟩ := h
      simp [closeS]
    | false =>
      match cleanup with
      | none =>
        simp [closeS, Option.map] at h
        obtain ⟨rfl⟩ := h
        simp [closeS]
      | some ge => simp [closeS, Option.map] at h
  | .filterS f inner =>
    simp only [closeS] at h
    rcases hcl : closeS inner with ⟨r, i⟩
    rw [hcl] at h
    simp at h
    obtain ⟨rfl, rfl⟩ := h
    have hi := closeNilFrozen inner i hcl
    simp [closeS, hi]
  | .mapS m inner =>
    simp only [closeS] at h
    rcases hcl : closeS inner with ⟨r, i⟩
    rw [hcl] at h
    simp at h
    obtain ⟨rfl, rfl⟩ := h
    have hi := closeNilFrozen inner i hcl
    simp [closeS, hi]
  | .sliceS inner a b i d =>
    simp only [closeS] at h
    rcases hcl : closeS inner with ⟨r, j⟩
    rw [hcl] at h
    simp at h
    obtain ⟨rfl, rfl⟩ := h
    have hi := closeNilFrozen inner j hcl
    simp [closeS, hi]
  | .takeS f inner =>
    simp only [closeS] at h
    rcases hcl : closeS inner with ⟨r, i⟩
    rw [hcl] at h
    simp at h
    obtain ⟨rfl, rfl⟩ := h
    have hi := closeNilFrozen inner i hcl
    simp [closeS, hi]
  | .dropS f inner =>
    simp only [closeS] at h
    rcases hcl : closeS inner with ⟨r, i⟩
    rw [hcl] at h
    simp at h
    obtain ⟨rfl, rfl⟩ := h
    have hi := closeNilFrozen inner i hcl
    simp [closeS, hi]
  | .concatS p q =>
    simp only [closeS] at h
    rcases hp : closeList p with ⟨r1, p'⟩
    rcases hq : closeList q with ⟨r2, q'⟩
    rw [hp, hq] at h
    simp at h
    obtain ⟨h1, rfl⟩ := h
    match r1 with
    | some e => simp at h1
    | none =>
      simp at h1
      subst h1
      have hip := closeListNilFrozen p p' hp
      have hiq := closeListNilFrozen q q' hq
      simp [closeS, hip, hiq]

/-- List version of closeNilFrozen for the substream list of concat. -/
theorem closeListNilFrozen (l l' : List Stream') (h : closeList l = (none, l')) :
    closeList l' = (none, l') := by
  match l with
  | [] =>
    simp [closeList] at h
    obtain ⟨rfl⟩ := h
    simp [closeList]
  | s :: t =>
    simp only [closeList] at h
    rcases hs : closeS s with ⟨r, s'⟩
    rcases ht : closeList t with ⟨rt, t'⟩
    rw [hs, ht] at h
    simp at h
    obtain ⟨h1, rfl⟩ := h
    match r with
    | some e => simp at h1
    | none =>
      simp at h1
      subst h1
      have h2 := closeNilFrozen s s' hs
      have h3 := closeListNilFrozen t t' ht
      simp [closeList, h2, h3]

end


/-- Claim C1: for every stream state of this package (built over base
sources that satisfy the Stream contract, as all states of `Stream'`
are by construction), once a Next call returns Done, every subsequent
Next call that returns also returns Done and leaves the state — in
particular every inner stream together with its instrumentation
counters — completely unchanged. -/
theorem claim_C1_next_done_sticky (fuel₁ : Nat) (s s' : Stream')
    (h : nextF fuel₁ s = some (.err .done, s')) (fuel₂ : Nat) (r : NextRes)
    (s'' : Stream') (h2 : nextF fuel₂ s' = some (r, s'')) :
    r = .err .done ∧ s'' = s' :=
  nextDoneSticky fuel₁ s s' h fuel₂ r s'' h2

/-- Witness for C1: a freshly exhausted external stream keeps reporting
Done with an unchanged state. -/
theorem claim_C1_next_done_sticky_witness :
    nextF 1 (.extS [] 0 [] false 0) = some (.err .done, .extS [] 0 [] false 0) ∧
      ((.err .done : NextRes) = .err .done ∧
        (Stream'.extS [] 0 [] false 0 : Stream') = .extS [] 0 [] false 0) :=
  ⟨rfl, claim_C1_next_done_sticky 1 (.extS [] 0 [] false 0) (.extS [] 0 [] false 0)
    rfl 1 (.err .done) (.extS [] 0 [] false 0) rfl⟩

/-- Counterexample for C2 as stated: a generator built by NewGenerator
whose emitting function passes the Skipped sentinel to Return makes the
very first external Next call return Skipped, so Skipped does leak to
the outside caller of a stream constructed by this package. -/
theorem claim_C2_counterexample :
    nextF 1 (NewGenerator' [.fail .skipped]) =
      some (.err .skipped, .genS [] none false none) := rfl

/-- Claim C2 as amended: Next never returns Skipped for any stream of
the package whose base sources are themselves skip-free (no generator
step, generator cleanup, external script entry or scripted close result
is the Skipped sentinel); the wrapper streams consume Skipped
internally, and skip-freedom is preserved by every step.  Without the
skip-freedom hypothesis the claim fails: a generator emitting function
may pass Skipped to Return and regularGenerator.Next hands it to the
external caller verbatim. -/
theorem claim_C2_no_skip_leak (fuel : Nat) (s : Stream') (res : NextRes)
    (s' : Stream') (hn : noSkipB s = true) (h : nextF fuel s = some (res, s')) :
    res ≠ .err .skipped ∧ noSkipB s' = true :=
  nextNoSkip fuel s res s' hn h

/-- Witness for the amended C2 on a filter wrapper over an external
stream whose script is skip-free. -/
theorem claim_C2_no_skip_leak_witness :
    noSkipB (.filterS (.andF []) (.extS [.emit 4] 0 [] false 0)) = true ∧
      nextF 2 (.filterS (.andF []) (.extS [.emit 4] 0 [] false 0)) =
        some (.val 4, .filterS (.andF []) (.extS [] 1 [] false 0)) ∧
      ((.val 4 : NextRes) ≠ .err .skipped ∧
        noSkipB (.filterS (.andF []) (.extS [] 1 [] false 0)) = true) :=
  ⟨rfl, rfl, claim_C2_no_skip_leak 2
    (.filterS (.andF []) (.extS [.emit 4] 0 [] false 0)) (.val 4)
    (.filterS (.andF []) (.extS [] 1 [] false 0)) rfl rfl⟩

/-- Counterexample for C3 as stated: a rowStream whose underlying
closer keeps failing.  The first Close reports the error, and the
second Close is not a success and not side-effect free: closeUnder
retries the underlying closer (its call count goes from 1 to 2) and
returns the second failure. -/
theorem claim_C3_counterexample :
    closeS (.rowS [] false [some (.other 1), some (.other 2)] false 0) =
        (some (.other 1), .rowS [] false [some (.other 2)] false 1) ∧
      closeS (.rowS [] false [some (.other 2)] false 1) =
        (some (.other 2), .rowS [] false [] false 2) ∧
      (some (Err.other 2) : GoError) ≠ none :=
  ⟨rfl, rfl, by simp⟩

/-- Claim C3 as amended: Close is idempotent after success.  The first
Close performs the real cleanup and returns its outcome; once a Close
call has returned nil, every further Close call returns nil with no
further side effects (the state, including instrumentation counters, is
unchanged).  After a failed Close, the code does not guarantee a nil
result: closeUnder-based streams retry the underlying closer and report
its outcome, and a generator keeps reporting the recorded failure. -/
theorem claim_C3_close_idempotent_after_nil (s s' : Stream')
    (h : closeS s = (none, s')) : closeS s' = (none, s') :=
  closeNilFrozen s s' h

/-- Witness for the amended C3: closing a rowStream whose closer
succeeds, twice. -/
theorem claim_C3_close_idempotent_after_nil_witness :
    closeS (.rowS [5] false [] false 0) = (none, .rowS [5] false [] true 1) ∧
      closeS (.rowS [5] false [] true 1) = (none, .rowS [5] false [] true 1) :=
  ⟨rfl, claim_C3_close_idempotent_after_nil (.rowS [5] false [] false 0)
    (.rowS [5] false [] true 1) rfl⟩


/-- Counterexample for C4 as stated: a slice wrapper whose Next observes
the inner stream return Done reports Done but does not close the inner
stream — the instrumented inner records zero closer calls and its
closer pointer is untouched. -/
theorem claim_C4_counterexample :
    nextF 2 (Slice' (.extS [] 0 [] false 0) 0 (-1)) =
        some (.err .done, .sliceS (.extS [] 0 [] false 0) 0 (-1) 0 true) ∧
      closeCallsOf (sliceInner (stateOf
        (nextF 2 (Slice' (.extS [] 0 [] false 0) 0 (-1))))) = 0 :=
  ⟨rfl, rfl⟩

/-- Claim C4 as amended: a single-inner wrapper that ends the stream
early closes the inner stream immediately and surfaces the close
outcome (Done for nil) through its own Next call — the slice wrapper
when its window is exhausted, and the takeWhile wrapper when its
filterer answers Skipped.  When instead the inner Next returns Done,
the wrapper reports Done and thereafter keeps reporting Done, but does
not close the inner stream (the inner state passes through unchanged). -/
theorem claim_C4_wrapper_close (fuel : Nat) : 
    (∀ (inner : Stream') (start stop index : Int),
        ¬(stop < 0 ∨ index < stop) →
        nextF (fuel + 1) (.sliceS inner start stop index false) =
          some (.err (finishE (closeS inner).1),
            .sliceS (closeS inner).2 start stop index true)) ∧
    (∀ (inner inner' : Stream') (start stop index : Int),
        (stop < 0 ∨ index < stop) →
        nextF fuel inner = some (.err .done, inner') →
        nextF (fuel + 1) (.sliceS inner start stop index false) =
          some (.err .done, .sliceS inner' start stop index true)) ∧
    (∀ (f : Filterer) (inner inner' : Stream') (v v' : Int),
        nextF fuel inner = some (.val v, inner') →
        runFilterer f v = (some .skipped, v') →
        nextF (fuel + 1) (.takeS (some f) inner) =
          some (.err (finishE (closeS inner').1), .takeS none (closeS inner').2)) ∧
    (∀ (f : Filterer) (inner inner' : Stream'),
        nextF fuel inner = some (.err .done, inner') →
        nextF (fuel + 1) (.takeS (some f) inner) =
          some (.err .done, .takeS none inner')) := by
  refine ⟨?_, ?_, ?_, ?_⟩
  · intro inner start stop index hd
    simp only [nextF, Bool.false_eq_true, if_false]
    rw [if_neg hd]
  · intro inner inner' start stop index hc h
    simp only [nextF, Bool.false_eq_true, if_false]
    rw [if_pos hc, h]
  · intro f inner inner' v v' h hf
    simp only [nextF]
    rw [h]
    simp only []
    rw [hf]
  · intro f inner inner' h
    simp only [nextF]
    rw [h]

/-- Witness for the amended C4: a slice window that is already
exhausted closes its instrumented inner stream at once (closer call
count becomes 1) and surfaces the closer failure through Next; the
takeWhile wrapper closes on the first Skipped answer; and on inner Done
no close occurs. -/
theorem claim_C4_wrapper_close_witness :
    ¬((0:Int) < 0 ∨ (0:Int) < 0) ∧
      nextF 1 (.sliceS (.extS [] 0 [some (.other 7)] false 0) 0 0 0 false) =
        some (.err (.other 7), .sliceS (.extS [] 0 [] false 1) 0 0 0 true) ∧
      nextF 2 (.takeS (some (.orF [])) (.extS [.emit 5] 0 [] false 0)) =
        some (.err .done, .takeS none (.extS [] 1 [] true 1)) := by
  refine ⟨by norm_num, ?_, ?_⟩
  · have h := (claim_C4_wrapper_close 0).1 (.extS [] 0 [some (.other 7)] false 0)
      0 0 0 (by norm_num)
    simpa [closeS, closeUnder, finishE] using h
  · have h := (claim_C4_wrapper_close 1).2.2.1 (.orF []) (.extS [.emit 5] 0 [] false 0)
      (.extS [] 1 [] false 0) 5 5 rfl rfl
    simpa [closeS, closeUnder, finishE] using h

/-- Counterexample for C5 as stated: Slice(s, 5, 3) has start >= end >=
0, and its first Next call yields no value and ends the stream, but it
does call Next on the inner stream: the instrumented inner records
three effective Next calls before the window is exhausted, so the inner
is not closed without being read. -/
theorem claim_C5_counterexample :
    nextF 4 (Slice' (.extS [.emit 10, .emit 20, .emit 30, .emit 40] 0 [] false 0) 5 3) =
        some (.err .done, .sliceS (.extS [.emit 40] 3 [] true 1) 5 3 3 true) ∧
      (extNextCalls (sliceInner (stateOf (nextF 4
          (Slice' (.extS [.emit 10, .emit 20, .emit 30, .emit 40] 0 [] false 0) 5 3)))) = 3 ∧
        (3 : Nat) ≠ 0) :=
  ⟨rfl, rfl, by simp⟩

/-- Claim C5 as amended: for start >= end >= 0, Slice(s, start, end)
yields no values.  When end = 0 the first Next closes s without ever
calling Next on s (the final inner state is exactly the closed state of
s) and surfaces the close outcome, Done on a clean close.  When
end > 0, however, the inner stream is read: up to end values are pulled
from s and discarded before s is closed or found exhausted, so no Next
call of the slice ever returns a value. -/
theorem claim_C5_empty_slice :
    (∀ (fuel : Nat) (inner : Stream') (start : Int),
        nextF (fuel + 1) (Slice' inner start 0) =
          some (.err (finishE (closeS inner).1),
            .sliceS (closeS inner).2 start 0 0 true)) ∧
    (∀ (fuel : Nat) (inner : Stream') (start stop index : Int) (res : NextRes)
        (s' : Stream'), 0 ≤ stop → stop ≤ start →
        nextF fuel (.sliceS inner start stop index false) = some (res, s') →
        ∀ v : Int, res ≠ .val v) := by
  constructor
  · intro fuel inner start
    simp only [Slice', nextF, Bool.false_eq_true, if_false]
    rw [if_neg (by norm_num)]
  · intro fuel
    induction fuel with
    | zero => intro inner start stop index res s' _ _ h; simp [nextF] at h
    | succ n ih =>
      intro inner start stop index res s' h0 hss h v
      simp only [nextF, Bool.false_eq_true, if_false] at h
      by_cases hc : stop < 0 ∨ index < stop
      · rw [if_pos hc] at h
        have hidx : index < stop := by
          rcases hc with hc | hc
          · omega
          · exact hc
        rcases hin : nextF n inner with _ | ⟨res0, inner'⟩ <;> rw [hin] at h
        · simp at h
        · match res0 with
          | .err .done =>
            simp at h
            obtain ⟨rfl, rfl⟩ := h
            simp
          | .err .skipped =>
            simp at h
            obtain ⟨rfl, rfl⟩ := h
            simp
          | .err (.other m) =>
            simp at h
            obtain ⟨rfl, rfl⟩ := h
            simp
          | .val v0 =>
            simp only [] at h
            by_cases hv : index + 1 > start
            · omega
            · rw [if_neg hv] at h
              exact ih inner' start stop (index + 1) res s' h0 hss h v
      · rw [if_neg hc] at h
        rcases hcl : closeS inner with ⟨r, j⟩
        rw [hcl] at h
        simp at h
        obtain ⟨rfl, rfl⟩ := h
        simp

/-- Witness for the amended C5 at concrete inputs: the end = 0 case on
an instrumented inner stream, and the no-value guarantee applied to a
slice with start = stop = 1 over a one-element stream. -/
theorem claim_C5_empty_slice_witness :
    nextF 1 (Slice' (.extS [.emit 9] 0 [] false 0) 4 0) =
        some (.err .done, .sliceS (.extS [.emit 9] 0 [] true 1) 4 0 0 true) ∧
      ((0:Int) ≤ 1 ∧ (1:Int) ≤ 1 ∧
        nextF 2 (.sliceS (.extS [.emit 1] 0 [] false 0) 1 1 0 false) =
          some (.err .done, .sliceS (.extS [] 1 [] true 1) 1 1 1 true) ∧
        (NextRes.err .done ≠ NextRes.val 1)) := by
  refine ⟨?_, by norm_num, by norm_num, rfl, ?_⟩
  · have h := claim_C5_empty_slice.1 0 (.extS [.emit 9] 0 [] false 0) 4
    simpa [closeS, closeUnder, finishE] using h
  · exact claim_C5_empty_slice.2 2 (.extS [.emit 1] 0 [] false 0) 1 1 0
      (.err .done) (.sliceS (.extS [] 1 [] true 1) 1 1 1 true)
      (by norm_num) (by norm_num) rfl 1

/-- Claim C6: filter fusion.  Filter(f2, Filter(f1, s)) is the very
same stream state as Filter(All(f1, f2), s): one filter wrapper whose
filterer is the flat conjunction of the two filterers, so the two are
behaviorally identical, and when s is not itself a filter wrapper the
result is a single filterStream directly over s (no nesting). -/
theorem claim_C6_filter_fusion :
    (∀ (f1 f2 : Filterer) (s : Stream'),
        Filter' f2 (Filter' f1 s) = Filter' (All' [f1, f2]) s) ∧
    (∀ (f1 f2 : Filterer) (s : Stream'), isFilterS s = false →
        Filter' f2 (Filter' f1 s) = .filterS (All' [f1, f2]) s) := by
  constructor
  · intro f1 f2 s
    cases s <;> simp [Filter', All', andList, List.append_assoc]
  · intro f1 f2 s hs
    cases s <;> simp_all [Filter', All', isFilterS]

/-- Witness for C6 at concrete filterers over a non-filter stream. -/
theorem claim_C6_filter_fusion_witness :
    isFilterS Stream'.nilS = false ∧
      Filter' (.orF []) (Filter' (.andF []) .nilS) =
        .filterS (All' [.andF [], .orF []]) .nilS :=
  ⟨rfl, claim_C6_filter_fusion.2 (.andF []) (.orF []) .nilS rfl⟩

/-- Claim C7, evaluating the code at the failing input: Concat of zero
streams is a fresh concatStream wrapper, not the NilStream constant
(their discriminators differ), and Concat of one stream is a strictly
larger wrapper state than the stream itself, so it is never the stream
unchanged.  Behaviorally the zero-stream wrapper does act as an empty
stream: Next always returns Done and Close returns nil.  The package
tests TestConcatEmpty and TestConcatSingle demand identity, which this
Concat does not satisfy. -/
theorem claim_C7_concat_wraps :
    isNilS (Concat' []) = false ∧
      (∀ s : Stream', sizeOf s < sizeOf (Concat' [s])) ∧
      (∀ fuel : Nat, nextF (fuel + 2) (Concat' []) = some (.err .done, Concat' [])) ∧
      closeS (Concat' []) = (none, Concat' []) := by
  refine ⟨rfl, ?_, ?_, rfl⟩
  · intro s
    simp [Concat']
    omega
  · intro fuel
    rfl


/-- Counterexample for C8 as stated: when the source stream is
exhausted (its Next returns Done), EmitAll returns nil — not Done and
not a close outcome — and does not close the source: the final source
state is unchanged, with zero closer calls, even though its scripted
closer would have reported an error. -/
theorem claim_C8_counterexample :
    EmitAllF 1 5 (.extS [] 0 [some (.other 3)] false 0) =
        some (none, [], .extS [] 0 [some (.other 3)] false 0) ∧
      (closeCallsOf (.extS [] 0 [some (.other 3)] false 0) = 0 ∧
        (none : GoError) ≠ some Err.done) :=
  ⟨rfl, rfl, by simp⟩

/-- Claim C8 as amended, over an instrumented source with value script
xs and closer script rs.  EmitAll pulls values from the source and
yields each one.  If the consumer of the emitter closes after accepting
k values while the source still has values (k does not exceed the
script), EmitAll closes the source exactly once and returns finish of
the close outcome (Done for a clean close, the close error otherwise).
If instead the source is exhausted first, EmitAll returns nil — a
success, not Done — and does not close the source. -/
theorem claim_C8_emitall (fuel : Nat) (k : Nat) (xs : List Int) (c cc : Nat)
    (rs : List GoError) :
    (k ≤ xs.length →
      EmitAllF (fuel + 1) k (.extS (xs.map .emit) c rs false cc) =
        some (some (finishE (rs.headD none)), (xs.take k).map .val,
          .extS ((xs.drop k).map .emit) (c + k) rs.tail (rs.headD none).isNone (cc + 1))) ∧
    (xs.length < k →
      EmitAllF (fuel + 1) k (.extS (xs.map .emit) c rs false cc) =
        some (none, xs.map .val, .extS [] (c + xs.length) rs false cc)) := by
  induction k generalizing xs c with
  | zero =>
    constructor
    · intro hk
      simp [EmitAllF, closeS, closeUnder]
    · intro hk
      omega
  | succ n ih =>
    match xs with
    | [] =>
      constructor
      · intro hk
        simp at hk
      · intro hk
        simp [EmitAllF, nextF]
    | x :: t =>
      constructor
      · intro hk
        have hk' : n ≤ t.length := by simpa using hk
        have h1 := (ih t (c + 1)).1 hk'
        simp only [List.map_cons, EmitAllF, nextF]
        rw [h1]
        have hc : c + 1 + n = c + (n + 1) := by omega
        simp [hc]
      · intro hk
        have hk' : t.length < n := by simpa using hk
        have h1 := (ih t (c + 1)).2 hk'
        simp only [List.map_cons, EmitAllF, nextF]
        rw [h1]
        have hc : c + 1 + t.length = c + (t.length + 1) := by omega
        simp [hc]

/-- Witness for the amended C8: the consumer-closes arm with a failing
closer, and the source-exhausted arm. -/
theorem claim_C8_emitall_witness :
    (1 ≤ ([4, 5] : List Int).length ∧
      EmitAllF 1 1 (.extS [.emit 4, .emit 5] 0 [some (.other 2)] false 0) =
        some (some (.other 2), [.val 4], .extS [.emit 5] 1 [] false 1)) ∧
    (([7] : List Int).length < 2 ∧
      EmitAllF 1 2 (.extS [.emit 7] 0 [] false 0) =
        some (none, [.val 7], .extS [] 1 [] false 0)) := by
  constructor
  · refine ⟨by norm_num, ?_⟩
    have h := (claim_C8_emitall 0 1 [4, 5] 0 0 [some (.other 2)]).1 (by norm_num)
    simpa [finishE] using h
  · refine ⟨by norm_num, ?_⟩
    have h := (claim_C8_emitall 0 2 [7] 0 0 []).2 (by norm_num)
    simpa using h


/-- Next on an external base stream always returns and never touches
the closer fields or the close counter. -/
theorem extNext_shape (fuel : Nat) (sc : List GenStep) (c cc : Nat)
    (rs : List GoError) (g : Bool) :
    ∃ res sc2 c2, nextF (fuel + 1) (.extS sc c rs g cc) =
      some (res, .extS sc2 c2 rs g cc) := by
  match sc with
  | [] => exact ⟨.err .done, [], c, rfl⟩
  | .emit v :: t => exact ⟨.val v, t, c + 1, rfl⟩
  | .fail e :: t => exact ⟨.err e.toErr, t, c + 1, rfl⟩

/-- One broadcast round never increases the pending-request measure. -/
theorem mcMeasure_round_le (sts : List (Option Nat)) :
    mcMeasure (mcRound sts) ≤ mcMeasure sts := by
  induction sts with
  | nil => simp [mcMeasure, mcRound]
  | cons hd t ih =>
    match hd with
    | none =>
      simp only [mcMeasure, mcRound, List.map_cons, List.sum_cons] at ih ⊢
      omega
    | some 0 =>
      simp only [mcMeasure, mcRound, List.map_cons, List.sum_cons] at ih ⊢
      omega
    | some (m + 1) =>
      simp only [mcMeasure, mcRound, List.map_cons, List.sum_cons] at ih ⊢
      omega

/-- A broadcast round that leaves some consumer active strictly
decreases the pending-request measure. -/
theorem mcMeasure_round_lt (sts : List (Option Nat))
    (h : anyActive (mcRound sts) = true) :
    mcMeasure (mcRound sts) < mcMeasure sts := by
  induction sts with
  | nil => simp [anyActive, mcRound] at h
  | cons hd t ih =>
    match hd with
    | none =>
      have h' : anyActive (mcRound t) = true := by
        simpa [anyActive, mcRound] using h
      have := ih h'
      simp only [mcMeasure, mcRound, List.map_cons, List.sum_cons] at this ⊢
      omega
    | some 0 =>
      have := mcMeasure_round_le t
      simp only [mcMeasure, mcRound, List.map_cons, List.sum_cons] at this ⊢
      omega
    | some (m + 1) =>
      have := mcMeasure_round_le t
      simp only [mcMeasure, mcRound, List.map_cons, List.sum_cons] at this ⊢
      omega

/-- When no adapter is active any more, every adapter state is none. -/
theorem allNone_of_not_active (l : List (Option Nat)) (h : anyActive l = false) :
    l.all Option.isNone = true := by
  induction l with
  | nil => simp
  | cons hd t ih =>
    simp only [anyActive, List.any_cons, Bool.or_eq_false_iff] at h
    simp only [List.all_cons, Bool.and_eq_true]
    constructor
    · match hd with
      | none => rfl
      | some m => simp at h
    · exact ih h.2

/-- Main loop of MultiConsume over an instrumented upstream: given
enough rounds, the loop terminates with every consumer finished, the
upstream closed exactly once (closer call count incremented by one,
closer script advanced by one), and the first closer outcome returned. -/
theorem mcLoop_ext (fuel : Nat) (rounds : Nat) (sts : List (Option Nat))
    (sc : List GenStep) (c cc : Nat) (rs : List GoError)
    (h : mcMeasure sts < rounds) :
    ∃ sc' c' sts', mcLoopF (fuel + 1) rounds (.extS sc c rs false cc) sts =
      some (rs.headD none,
        .extS sc' c' rs.tail (rs.headD none).isNone (cc + 1), sts') ∧
      sts'.all Option.isNone = true ∧ sts'.length = sts.length := by
  induction rounds generalizing sts sc c with
  | zero => omega
  | succ m ih =>
    by_cases ha : anyActive (mcRound sts) = true
    · obtain ⟨res, sc2, c2, hnx⟩ := extNext_shape fuel sc c cc rs false
      have hlt : mcMeasure (mcRound sts) < m := by
        have := mcMeasure_round_lt sts ha
        have h2 := mcMeasure_round_le sts
        omega
      obtain ⟨sc', c', sts', heq, hall, hlen⟩ := ih (mcRound sts) sc2 c2 hlt
      refine ⟨sc', c', sts', ?_, hall, ?_⟩
      · simp only [mcLoopF, ha, if_true, hnx]
        exact heq
      · rw [hlen]
        simp [mcRound]
    · refine ⟨sc, c, mcRound sts, ?_, ?_, by simp [mcRound]⟩
      · simp only [mcLoopF, ha, if_false, closeS, closeUnder,
          Bool.false_eq_true]
      · exact allNone_of_not_active _ (by simpa using ha)

/-- Claim C9: MultiConsume with any list of consumers (the empty list
included) closes the upstream exactly once — the instrumented closer
records exactly one call, made only after every consumer adapter has
finished (all final adapter states are none) — and returns that single
close outcome as its overall result; and the per-consumer private
splitStream Close is a no-op returning nil, never touching the
upstream. -/
theorem claim_C9_multiconsume (fuel rounds : Nat) (consumers : List Nat)
    (sc : List GenStep) (c cc : Nat) (rs : List GoError)
    (h : mcMeasure (consumers.map some) < rounds) :
    (∃ sc' c' sts',
      MultiConsume' (fuel + 1) rounds (.extS sc c rs false cc) consumers =
        some (rs.headD none,
          .extS sc' c' rs.tail (rs.headD none).isNone (cc + 1), sts') ∧
        sts'.all Option.isNone = true ∧ sts'.length = consumers.length) ∧
      splitStreamClose = none := by
  refine ⟨?_, rfl⟩
  have hm := mcLoop_ext fuel rounds (consumers.map some) sc c cc rs h
  simpa [MultiConsume'] using hm

/-- Witness for C9: two consumers requesting 2 and 1 values over a
three-value upstream whose closer reports an error; also exercises the
zero-consumer case. -/
theorem claim_C9_multiconsume_witness :
    (mcMeasure ([2, 1].map some) < 6 ∧
      (∃ sc' c' sts',
        MultiConsume' 1 6 (.extS [.emit 1, .emit 2, .emit 3] 0 [some (.other 9)] false 0)
            [2, 1] =
          some (some (.other 9), .extS sc' c' [] false 1, sts') ∧
        sts'.all Option.isNone = true ∧ sts'.length = 2)) ∧
    (mcMeasure ([].map some) < 1 ∧
      (∃ sc' c' sts',
        MultiConsume' 1 1 (.extS [] 0 [] false 0) [] =
          some (none, .extS sc' c' [] true 1, sts') ∧
        sts'.all Option.isNone = true ∧ sts'.length = 0)) := by
  constructor
  · refine ⟨by decide, ?_⟩
    have := (claim_C9_multiconsume 0 6 [2, 1] [.emit 1, .emit 2, .emit 3] 0 0
      [some (.other 9)] (by decide)).1
    simpa using this
  · refine ⟨by decide, ?_⟩
    have := (claim_C9_multiconsume 0 1 [] [] 0 0 [] (by decide)).1
    simpa using this


/-- Wrap-around addition absorbs an inner wrap. -/
theorem wrap64_add (x y : Int) : wrap64 (wrap64 x + y) = wrap64 (x + y) := by
  unfold wrap64
  omega

/-- Values already in the 64-bit signed range are fixed by wrap64. -/
theorem wrap64_eq_self (x : Int) (h1 : -(2 ^ 63) ≤ x) (h2 : x < 2 ^ 63) :
    wrap64 x = x := by
  unfold wrap64
  omega

/-- The step field of the count stream never changes. -/
theorem countStateAt_step (c : CountS) (n : Nat) :
    (countStateAt c n).step = c.step := by
  induction n with
  | zero => rfl
  | succ m ih => simp [countStateAt, countNext, ih]

/-- Closed form of the count stream state: after n Next calls the next
value to be emitted is the 64-bit wrap of start + n * step. -/
theorem countValue_formula (start step : Int) (h1 : -(2 ^ 63) ≤ start)
    (h2 : start < 2 ^ 63) (n : Nat) :
    (countStateAt (CountFrom' start step) n).start =
      wrap64 (start + (n : Int) * step) := by
  induction n with
  | zero =>
    simp [countStateAt, CountFrom', wrap64_eq_self start h1 h2]
  | succ m ih =>
    have hs := countStateAt_step (CountFrom' start step) m
    show (countNext (countStateAt (CountFrom' start step) m)).2.start = _
    rw [countNext]
    simp only [ih, hs]
    rw [wrap64_add]
    congr 1
    simp only [CountFrom']
    push_cast
    ring

/-- Counterexample for C10 as stated: CountFrom(2^63 - 1, 1) overflows
on its second Next call.  The value written is -(2^63), the wrapped
result of Go int addition, while the claim demands start + 1 * step =
2^63; the two differ (the written value is strictly smaller). -/
theorem claim_C10_counterexample :
    countValueAt (CountFrom' (2 ^ 63 - 1) 1) 1 = -(2 ^ 63) ∧
      ((2 ^ 63 - 1 : Int) + 1 * 1 = 2 ^ 63 ∧
        (-(2 ^ 63) : Int) < 2 ^ 63 - 1 + 1 * 1) := by
  refine ⟨?_, by norm_num, by norm_num⟩
  norm_num [countValueAt, countStateAt, countNext, CountFrom', wrap64]

/-- Claim C10 as amended: CountFrom(start, step) is an infinite stream:
its Next never returns Done or any error (in the model countNext is a
total function with no error outcome) and always writes a value, the
(n+1)-th Next call writes the 64-bit wrapped value of start + n * step
(which equals start + n * step whenever no overflow occurs), Close
always returns nil without changing the state, and Count() is exactly
CountFrom(0, 1). -/
theorem claim_C10_countfrom (start step : Int) (h1 : -(2 ^ 63) ≤ start)
    (h2 : start < 2 ^ 63) (n : Nat) :
    countValueAt (CountFrom' start step) n = wrap64 (start + (n : Int) * step) ∧
      countClose (countStateAt (CountFrom' start step) n) =
        (none, countStateAt (CountFrom' start step) n) ∧
      Count' = CountFrom' 0 1 := by
  refine ⟨?_, rfl, rfl⟩
  simpa [countValueAt, countNext] using countValue_formula start step h1 h2 n

/-- Witness for the amended C10: CountFrom(5, 3) writes 11 on its third
Next call. -/
theorem claim_C10_countfrom_witness :
    (-(2 ^ 63) : Int) ≤ 5 ∧ (5 : Int) < 2 ^ 63 ∧
      countValueAt (CountFrom' 5 3) 2 = 11 ∧ Count' = CountFrom' 0 1 := by
  refine ⟨by norm_num, by norm_num, ?_, rfl⟩
  have h := (claim_C10_countfrom 5 3 (by norm_num) (by norm_num) 2).1
  rw [h]
  norm_num [wrap64]


end GoFunc
